import Mathlib

/-!
Shallow embedding of the core of `yt-subs2srs`:

* `src/modules/segmenter.py` — sentence segmentation (`segment_into_sentences`,
  `filter_valid_sentences`, class `Sentence`), and
* `src/modules/cache_manager.py` — the per-session transcript cache
  (`save_transcript`, `get_transcript`, `get_age_hours`, `cleanup_old_sessions`).

Word texts are modelled as `List Char`; times (Python floats, seconds) as `ℚ`.
-/

/-- Word record produced by the transcriber (`TranscriptWordData` in
`src/modules/transcriber.py`): text, start/end time in seconds, optional
speaker label. -/
structure TranscriptWordData where
  text : List Char
  start : ℚ
  «end» : ℚ
  speaker : Option (List Char)
deriving DecidableEq, Repr

/-- Python regex `[。！？]` applied to a word's text: does the text contain a
sentence-final punctuation character? -/
def hasSentencePunct (t : List Char) : Bool :=
  t.any (fun c => c = '。' || c = '！' || c = '？')

/-- Python regex `[、]`: does the text contain the clause-separator comma? -/
def hasClausePunct (t : List Char) : Bool :=
  t.any (fun c => c = '、')

/-- Model of Python's regex `\s` character class (Unicode whitespace as matched
by `re` on `str` patterns). -/
def isPySpaceChar (c : Char) : Bool :=
  c = ' ' || c = '\t' || c = '\n' || c = '\r' || c = '\x0b' || c = '\x0c' ||
  c = '\x1c' || c = '\x1d' || c = '\x1e' || c = '\x1f' || c = '\x85' || c = '\xa0' ||
  c = ' ' || (' ' ≤ c && c ≤ ' ') ||
  c = ' ' || c = ' ' || c = ' ' || c = ' ' || c = '　'

/-- Python regex `[。！？、\s]` from the forced-split branch: does the text
contain any punctuation or whitespace boundary marker? -/
def hasBoundaryChar (t : List Char) : Bool :=
  t.any (fun c => c = '。' || c = '！' || c = '？' || c = '、' || isPySpaceChar c)

/-- Head of the buffer `buf ++ [w]`: `current_sentence[0]` in the source. -/
def bufFirst (buf : List TranscriptWordData) (w : TranscriptWordData) : TranscriptWordData :=
  match buf with
  | [] => w
  | b :: _ => b

/-- Sentence value object (`class Sentence` in `src/modules/segmenter.py`):
stores its words plus derived text, start/end times and speaker. -/
structure Sentence where
  words : List TranscriptWordData
  text : List Char
  start_time : ℚ
  end_time : ℚ
  speaker : Option (List Char)
deriving DecidableEq, Repr

/-- Build the `Sentence` for the buffer `buf ++ [w]`.  The last word of
`buf ++ [w]` is `w`, so `words[-1].end` is `w.end`; `words[0]` is
`bufFirst buf w`.  Total because the buffer shape makes non-emptiness
structural. -/
def mkBufSentence (buf : List TranscriptWordData) (w : TranscriptWordData) : Sentence :=
  { words := buf ++ [w]
    text := ((buf ++ [w]).map (·.text)).flatten
    start_time := (bufFirst buf w).start
    end_time := w.«end»
    speaker := (bufFirst buf w).speaker }

/-- Direct rendering of `Sentence.__init__`: `words[0]` and `words[-1]` raise
on an empty list, modelled by `none`. -/
def Sentence.ofWords? (ws : List TranscriptWordData) : Option Sentence :=
  match ws with
  | [] => none
  | h :: t =>
    some { words := h :: t
           text := ((h :: t).map (·.text)).flatten
           start_time := h.start
           end_time := (t.getLast?.getD h).«end»
           speaker := h.speaker }

/-- Split decision of the loop body of `segment_into_sentences`, evaluated
after appending the current word `w`: `next` is the lookahead word, `first`
is `current_sentence[0]`, `len` is `len(current_sentence)`.  Mirrors the
`elif` chain at `src/modules/segmenter.py` lines 59-72. -/
def shouldSplit (maxLen minLen : Nat) (maxDur : ℚ) (w : TranscriptWordData)
    (next : Option TranscriptWordData) (first : TranscriptWordData) (len : Nat) : Bool :=
  match next with
  | none => true
  | some nw =>
    if w.speaker ≠ nw.speaker then true
    else if maxDur ≤ w.«end» - first.start ∧ minLen ≤ len then true
    else if hasSentencePunct w.text ∧ 5 ≤ len then true
    else if hasClausePunct w.text ∧ 7 ≤ len then true
    else if maxLen ≤ len ∧ hasBoundaryChar w.text then true
    else false

/-- Loop of `segment_into_sentences`: processes the current word `w` with the
remaining stream `rest` and the accumulated buffer `buf` (so
`current_sentence = buf ++ [w]` after the append).  On a split, the buffer is
emitted when it has at least `minLen` words, or unconditionally at the end of
the stream (`src/modules/segmenter.py` lines 74-85); otherwise the short
fragment is discarded and the buffer resets. -/
def segmentGo (maxLen minLen : Nat) (maxDur : ℚ) :
    TranscriptWordData → List TranscriptWordData → List TranscriptWordData → List Sentence
  | w, [], _buf =>
    [mkBufSentence _buf w]
  | w, r :: rs, buf =>
    if shouldSplit maxLen minLen maxDur w (some r) (bufFirst buf w) (buf.length + 1) then
      (if minLen ≤ buf.length + 1 then [mkBufSentence buf w] else []) ++
        segmentGo maxLen minLen maxDur r rs []
    else
      segmentGo maxLen minLen maxDur r rs (buf ++ [w])

/-- Embedding of `segment_into_sentences(words, max_length=10, min_length=3,
max_duration=8.0)`: empty input yields the empty list, otherwise run the loop
with an empty buffer. -/
def segment_into_sentences (ws : List TranscriptWordData)
    (maxLen minLen : Nat) (maxDur : ℚ) : List Sentence :=
  match ws with
  | [] => []
  | w :: rest => segmentGo maxLen minLen maxDur w rest []

/-- Python regex `[぀-ゟ゠-ヿ一-龯]`: is `c` a
Japanese (hiragana/katakana/CJK) character? -/
def isJapaneseChar (c : Char) : Bool :=
  ('\u3040' ≤ c && c ≤ '\u309F') || ('\u30A0' ≤ c && c ≤ '\u30FF') ||
  ('\u4E00' ≤ c && c ≤ '\u9FAF')

/-- Embedding of `filter_valid_sentences(sentences, min_length=3)`: keep
sentences with at least `minLen` words whose text contains a Japanese
character. -/
def filter_valid_sentences (sentences : List Sentence) (minLen : Nat) : List Sentence :=
  sentences.filter (fun s => decide (minLen ≤ s.words.length) && s.text.any isJapaneseChar)

/-- Ghost instrumentation of the segmentation loop: identical control flow to
`segmentGo`, but records every buffer handed to a split as a chunk
`((buf, w), emitted?)` whose words are `buf ++ [w]`, including the short
fragments that the loop discards. -/
def chunksGo (maxLen minLen : Nat) (maxDur : ℚ) :
    TranscriptWordData → List TranscriptWordData → List TranscriptWordData →
      List ((List TranscriptWordData × TranscriptWordData) × Bool)
  | w, [], buf => [((buf, w), true)]
  | w, r :: rs, buf =>
    if shouldSplit maxLen minLen maxDur w (some r) (bufFirst buf w) (buf.length + 1) then
      ((buf, w), decide (minLen ≤ buf.length + 1)) :: chunksGo maxLen minLen maxDur r rs []
    else
      chunksGo maxLen minLen maxDur r rs (buf ++ [w])

/-- Chunk decomposition of a whole word stream (ghost view of
`segment_into_sentences`). -/
def segmentChunks (ws : List TranscriptWordData)
    (maxLen minLen : Nat) (maxDur : ℚ) :
    List ((List TranscriptWordData × TranscriptWordData) × Bool) :=
  match ws with
  | [] => []
  | w :: rest => chunksGo maxLen minLen maxDur w rest []

/-- Words of a chunk. -/
def chunkWords (c : (List TranscriptWordData × TranscriptWordData) × Bool) :
    List TranscriptWordData :=
  c.1.1 ++ [c.1.2]

/-- Serialized word dict as written by `save_transcript` into
`transcript_cache.json` (keys `text`, `start`, `end`, `speaker`). -/
structure WordJson where
  text : List Char
  start : ℚ
  «end» : ℚ
  speaker : Option (List Char)
deriving DecidableEq, Repr

/-- Serialization performed inside `save_transcript` (`words_dict`). -/
def wordToDict (w : TranscriptWordData) : WordJson :=
  { text := w.text, start := w.start, «end» := w.«end», speaker := w.speaker }

/-- Embedding of `CacheManager.words_to_objects`. -/
def words_to_objects (ws : List WordJson) : List TranscriptWordData :=
  ws.map (fun w => { text := w.text, start := w.start, «end» := w.«end», speaker := w.speaker })

/-- Value stored under a video name in `transcript_cache.json` by
`save_transcript`. -/
structure CacheEntry where
  words : List WordJson
  video_path : List Char
  audio_path : List Char
  timestamp : ℚ
deriving DecidableEq, Repr

/-- State of one session's cache manager: the persisted JSON store (an
insertion-ordered string-keyed dictionary, as a Python `dict` round-tripped
through `json.dump`/`json.load`) and the `last_activity` marker. -/
structure CacheState where
  store : List (List Char × CacheEntry)
  last_activity : ℚ
deriving DecidableEq, Repr

/-- Python `dict` assignment `cache[k] = v`: replace the value at an existing
key in place, else append the new key at the end. -/
def dictInsert (k : List Char) (v : CacheEntry) :
    List (List Char × CacheEntry) → List (List Char × CacheEntry)
  | [] => [(k, v)]
  | (k', v') :: rest =>
    if k' = k then (k, v) :: rest else (k', v') :: dictInsert k v rest

/-- Python `dict` lookup `cache[k]` guarded by `k in cache`. -/
def dictGet (k : List Char) : List (List Char × CacheEntry) → Option CacheEntry
  | [] => none
  | (k', v) :: rest => if k' = k then some v else dictGet k rest

/-- Embedding of `CacheManager.save_transcript`: load the persisted store,
serialize the words, upsert the entry under `video_name` with the current
timestamp, write the store back, then refresh the activity marker. -/
def save_transcript (st : CacheState) (now : ℚ) (video_name : List Char)
    (words : List TranscriptWordData) (video_path audio_path : List Char) : CacheState :=
  let cache := st.store
  let words_dict := words.map wordToDict
  let entry : CacheEntry :=
    { words := words_dict, video_path := video_path, audio_path := audio_path, timestamp := now }
  { store := dictInsert video_name entry cache, last_activity := now }

/-- Embedding of `CacheManager.get_transcript`: look up by exact name;
refresh the activity marker on a hit only. -/
def get_transcript (st : CacheState) (now : ℚ) (video_name : List Char) :
    Option CacheEntry × CacheState :=
  match dictGet video_name st.store with
  | some entry => (some entry, { st with last_activity := now })
  | none => (none, st)

/-- State of one session directory as seen by the expiry sweep: the
`last_activity.txt` content (absent if the file does not exist). -/
structure SessionState where
  last_activity : Option ℚ
deriving DecidableEq, Repr

/-- Embedding of `CacheManager.update_activity`: write the current wall-clock
time into `last_activity.txt`. -/
def update_activity (now : ℚ) (_s : SessionState) : SessionState :=
  { last_activity := some now }

/-- Embedding of `CacheManager.get_age_hours`: hours since the recorded
activity, `0` when no activity file exists. -/
def get_age_hours (now : ℚ) (s : SessionState) : ℚ :=
  match s.last_activity with
  | none => 0
  | some t => (now - t) / 3600

/-- Per-session body of `cleanup_old_sessions`: constructing
`CacheManager(session_dir)` runs `__init__`, which calls `update_activity()`;
then the age is computed and the session is removed when it exceeds the
threshold (`age > max_age_hours`).  Returns the surviving session state, or
`none` when the session directory was deleted. -/
def sweepSession (now maxAgeHours : ℚ) (s : SessionState) : Option SessionState :=
  let s1 := update_activity now s
  let age := get_age_hours now s1
  if maxAgeHours < age then none else some s1

/-- Embedding of `cleanup_old_sessions(tmp_dir, max_age_hours)`: process every
session directory under the root, keeping those the sweep does not delete. -/
def cleanup_old_sessions (now maxAgeHours : ℚ) (sessions : List SessionState) :
    List SessionState :=
  sessions.filterMap (sweepSession now maxAgeHours)

/-- Sweep of the spec, modelled from the spec for comparison with the code:
"enumerate sessions, compute `ageHours()` for each, and `cleanup()` any
session exceeding the threshold" — the age is taken from the session's
recorded activity as it stands, without the constructor's refresh. -/
def specSweep (now maxAgeHours : ℚ) (sessions : List SessionState) :
    List SessionState :=
  sessions.filterMap (fun s => if maxAgeHours < get_age_hours now s then none else some s)

/-- Concrete stream: 12 single-letter words without punctuation or whitespace,
all times `0`, no speakers. -/
def exNoPunct : List TranscriptWordData :=
  (['a','b','c','d','e','f','g','h','i','j','k','l']).map (fun c => ⟨[c], 0, 0, none⟩)

/-- Concrete stream: the same 12 words, each followed by a space (a whitespace
boundary marker). -/
def exBoundary : List TranscriptWordData :=
  (['a','b','c','d','e','f','g','h','i','j','k','l']).map (fun c => ⟨[c, ' '], 0, 0, none⟩)

/-- Concrete stream: five words of speaker `A`, two of speaker `B`, three of
speaker `A`; no punctuation, all times `0`. -/
def exSpeakers : List TranscriptWordData :=
  [⟨['a'],0,0,some ['A']⟩, ⟨['b'],0,0,some ['A']⟩, ⟨['c'],0,0,some ['A']⟩,
   ⟨['d'],0,0,some ['A']⟩, ⟨['e'],0,0,some ['A']⟩,
   ⟨['f'],0,0,some ['B']⟩, ⟨['g'],0,0,some ['B']⟩,
   ⟨['h'],0,0,some ['A']⟩, ⟨['i'],0,0,some ['A']⟩, ⟨['j'],0,0,some ['A']⟩]

/-- Words of the sentences emitted for `exSpeakers`, concatenated in order. -/
def exSpeakersEmitted : List TranscriptWordData :=
  ((segment_into_sentences exSpeakers 10 3 8).map Sentence.words).flatten

/-- Concrete stream: 13 words, sentence-final punctuation only in the word at
index 12, no other boundary markers, one speaker, all times `0`. -/
def exSoft : List TranscriptWordData :=
  (['a','b','c','d','e','f','g','h','i','j','k','l']).map (fun c => ⟨[c], 0, 0, none⟩) ++
    [⟨['m', '。'], 0, 0, none⟩]

/-- Concrete cache state with one entry under the name `v2`. -/
def exStore : CacheState :=
  { store := [(['v','2'], { words := [], video_path := ['p'], audio_path := ['q'], timestamp := 0 })]
    last_activity := 0 }

/-! Helper lemmas about the split decision. -/

theorem sentencePunct_boundary {t : List Char} (h : hasSentencePunct t = true) :
    hasBoundaryChar t = true := by
  simp only [hasSentencePunct, hasBoundaryChar, List.any_eq_true, Bool.or_eq_true] at h ⊢
  obtain ⟨c, hc, hor⟩ := h
  exact ⟨c, hc, by tauto⟩

theorem clausePunct_boundary {t : List Char} (h : hasClausePunct t = true) :
    hasBoundaryChar t = true := by
  simp only [hasClausePunct, hasBoundaryChar, List.any_eq_true, Bool.or_eq_true] at h ⊢
  obtain ⟨c, hc, hor⟩ := h
  exact ⟨c, hc, by tauto⟩

theorem shouldSplit_speaker_eq {mL nL : Nat} {mD : ℚ} {w nw first : TranscriptWordData}
    {len : Nat} (h : shouldSplit mL nL mD w (some nw) first len = false) :
    w.speaker = nw.speaker := by
  by_contra hne
  simp [shouldSplit, hne] at h

theorem shouldSplit_len_lt {mL nL : Nat} {mD : ℚ} {w nw first : TranscriptWordData}
    {len : Nat} (h : shouldSplit mL nL mD w (some nw) first len = false)
    (hb : hasBoundaryChar w.text = true) : len < mL := by
  by_contra hge
  simp only [not_lt] at hge
  simp only [shouldSplit] at h
  split_ifs at h with h1 h2 h3 h4 h5
  exact h5 ⟨hge, hb⟩

theorem shouldSplit_of_duration {mL nL : Nat} {mD : ℚ} {w nw first : TranscriptWordData}
    {len : Nat} (hd : mD ≤ w.«end» - first.start) (hl : nL ≤ len) :
    shouldSplit mL nL mD w (some nw) first len = true := by
  simp only [shouldSplit]
  split_ifs with h1 h2 <;> first | rfl | exact absurd ⟨hd, hl⟩ h2

theorem shouldSplit_of_sentencePunct {mL nL : Nat} {mD : ℚ} {w nw first : TranscriptWordData}
    {len : Nat} (hp : hasSentencePunct w.text = true) (hl : 5 ≤ len) :
    shouldSplit mL nL mD w (some nw) first len = true := by
  simp only [shouldSplit]
  split_ifs with h1 h2 h3 <;> first | rfl | exact absurd ⟨hp, hl⟩ h3

theorem shouldSplit_false_of_no_boundary {mL nL : Nat} {mD : ℚ}
    {w nw first : TranscriptWordData} {len : Nat}
    (hsp : w.speaker = nw.speaker) (hd : w.«end» - first.start < mD ∨ len < nL)
    (hb : hasBoundaryChar w.text = false) :
    shouldSplit mL nL mD w (some nw) first len = false := by
  simp only [shouldSplit]
  split_ifs with h1 h2 h3 h4 h5
  · exact absurd hsp h1
  · rcases hd with hd | hd
    · exact absurd h2.1 (not_le.mpr hd)
    · exact absurd h2.2 (not_le.mpr hd)
  · exact absurd (sentencePunct_boundary h3.1) (by simp [hb])
  · exact absurd (clausePunct_boundary h4.1) (by simp [hb])
  · exact absurd h5.2 (by simp [hb])
  · rfl

/-! Helper lemmas about the segmentation loop. -/

theorem bufFirst_append (buf : List TranscriptWordData) (w r : TranscriptWordData) :
    bufFirst (buf ++ [w]) r = bufFirst buf w := by
  cases buf <;> rfl

theorem mkBufSentence_words (buf : List TranscriptWordData) (w : TranscriptWordData) :
    (mkBufSentence buf w).words = buf ++ [w] := rfl

theorem mkBufSentence_speaker (buf : List TranscriptWordData) (w : TranscriptWordData) :
    (mkBufSentence buf w).speaker = (bufFirst buf w).speaker := rfl

theorem segmentGo_nil (mL nL : Nat) (mD : ℚ) (w : TranscriptWordData)
    (buf : List TranscriptWordData) :
    segmentGo mL nL mD w [] buf = [mkBufSentence buf w] := rfl

theorem segmentGo_step_no_split {mL nL : Nat} {mD : ℚ} {w r : TranscriptWordData}
    {rs buf : List TranscriptWordData}
    (h : shouldSplit mL nL mD w (some r) (bufFirst buf w) (buf.length + 1) = false) :
    segmentGo mL nL mD w (r :: rs) buf = segmentGo mL nL mD r rs (buf ++ [w]) := by
  simp [segmentGo, h]

theorem segmentGo_step_split_emit {mL nL : Nat} {mD : ℚ} {w r : TranscriptWordData}
    {rs buf : List TranscriptWordData}
    (h : shouldSplit mL nL mD w (some r) (bufFirst buf w) (buf.length + 1) = true)
    (hm : nL ≤ buf.length + 1) :
    segmentGo mL nL mD w (r :: rs) buf = mkBufSentence buf w :: segmentGo mL nL mD r rs [] := by
  simp [segmentGo, h, hm]


theorem segmentGo_step_split {mL nL : Nat} {mD : ℚ} {w r : TranscriptWordData}
    {rs buf : List TranscriptWordData}
    (h : shouldSplit mL nL mD w (some r) (bufFirst buf w) (buf.length + 1) = true) :
    segmentGo mL nL mD w (r :: rs) buf =
      (if nL ≤ buf.length + 1 then [mkBufSentence buf w] else []) ++
        segmentGo mL nL mD r rs [] := by
  simp [segmentGo, h]

theorem chunksGo_step_split {mL nL : Nat} {mD : ℚ} {w r : TranscriptWordData}
    {rs buf : List TranscriptWordData}
    (h : shouldSplit mL nL mD w (some r) (bufFirst buf w) (buf.length + 1) = true) :
    chunksGo mL nL mD w (r :: rs) buf =
      ((buf, w), decide (nL ≤ buf.length + 1)) :: chunksGo mL nL mD r rs [] := by
  simp [chunksGo, h]

theorem chunksGo_step_no_split {mL nL : Nat} {mD : ℚ} {w r : TranscriptWordData}
    {rs buf : List TranscriptWordData}
    (h : shouldSplit mL nL mD w (some r) (bufFirst buf w) (buf.length + 1) = false) :
    chunksGo mL nL mD w (r :: rs) buf = chunksGo mL nL mD r rs (buf ++ [w]) := by
  simp [chunksGo, h]

theorem segmentGo_speaker_aux (mL nL : Nat) (mD : ℚ) :
    ∀ (rest : List TranscriptWordData) (w : TranscriptWordData) (buf : List TranscriptWordData),
      (∀ b ∈ buf ++ [w], b.speaker = (bufFirst buf w).speaker) →
      ∀ s ∈ segmentGo mL nL mD w rest buf, ∀ x ∈ s.words, x.speaker = s.speaker := by
  intro rest
  induction rest with
  | nil =>
    intro w buf hbuf s hs x hx
    rw [segmentGo_nil, List.mem_singleton] at hs
    subst hs
    rw [mkBufSentence_speaker]
    exact hbuf x (by simpa [mkBufSentence_words] using hx)
  | cons r rs ih =>
    intro w buf hbuf s hs x hx
    rcases Bool.eq_false_or_eq_true
        (shouldSplit mL nL mD w (some r) (bufFirst buf w) (buf.length + 1)) with h | h
    · rw [segmentGo_step_split h] at hs
      rcases List.mem_append.mp hs with hs | hs
      · by_cases hm : nL ≤ buf.length + 1
        · rw [if_pos hm, List.mem_singleton] at hs
          subst hs
          rw [mkBufSentence_speaker]
          exact hbuf x (by simpa [mkBufSentence_words] using hx)
        · rw [if_neg hm] at hs
          exact absurd hs (List.not_mem_nil s)
      · exact ih r [] (by simp [bufFirst]) s hs x hx
    · rw [segmentGo_step_no_split h] at hs
      refine ih r (buf ++ [w]) ?_ s hs x hx
      rw [bufFirst_append]
      intro b hb
      rcases List.mem_append.mp hb with hb | hb
      · exact hbuf b hb
      · rw [List.mem_singleton] at hb
        subst hb
        rw [← shouldSplit_speaker_eq h]
        exact hbuf w (by simp)

theorem segmentGo_len_aux (mL nL : Nat) (mD : ℚ) (hML : 1 ≤ mL) :
    ∀ (rest : List TranscriptWordData) (w : TranscriptWordData) (buf : List TranscriptWordData),
      (∀ x ∈ w :: rest, hasBoundaryChar x.text = true) →
      buf.length + 1 ≤ mL →
      ∀ s ∈ segmentGo mL nL mD w rest buf, s.words.length ≤ mL := by
  intro rest
  induction rest with
  | nil =>
    intro w buf _hb hlen s hs
    rw [segmentGo_nil, List.mem_singleton] at hs
    subst hs
    simpa [mkBufSentence_words] using hlen
  | cons r rs ih =>
    intro w buf hb hlen s hs
    rcases Bool.eq_false_or_eq_true
        (shouldSplit mL nL mD w (some r) (bufFirst buf w) (buf.length + 1)) with h | h
    · rw [segmentGo_step_split h] at hs
      rcases List.mem_append.mp hs with hs | hs
      · by_cases hm : nL ≤ buf.length + 1
        · rw [if_pos hm, List.mem_singleton] at hs
          subst hs
          simpa [mkBufSentence_words] using hlen
        · rw [if_neg hm] at hs
          exact absurd hs (List.not_mem_nil s)
      · exact ih r [] (fun x hx => hb x (by simp at hx ⊢; tauto)) hML s hs
    · rw [segmentGo_step_no_split h] at hs
      have hwb : hasBoundaryChar w.text = true := hb w (by simp)
      have hlt : buf.length + 1 < mL := shouldSplit_len_lt h hwb
      refine ih r (buf ++ [w]) (fun x hx => hb x (by simp at hx ⊢; tauto)) ?_ s hs
      simpa using hlt

theorem chunksGo_flatten (mL nL : Nat) (mD : ℚ) :
    ∀ (rest : List TranscriptWordData) (w : TranscriptWordData) (buf : List TranscriptWordData),
      ((chunksGo mL nL mD w rest buf).map chunkWords).flatten = buf ++ w :: rest := by
  intro rest
  induction rest with
  | nil => intro w buf; simp [chunksGo, chunkWords]
  | cons r rs ih =>
    intro w buf
    rcases Bool.eq_false_or_eq_true
        (shouldSplit mL nL mD w (some r) (bufFirst buf w) (buf.length + 1)) with h | h
    · rw [chunksGo_step_split h]
      simp only [List.map_cons, List.flatten_cons]
      rw [ih r []]
      simp [chunkWords]
    · rw [chunksGo_step_no_split h, ih r (buf ++ [w])]
      simp

theorem segmentGo_eq_chunks (mL nL : Nat) (mD : ℚ) :
    ∀ (rest : List TranscriptWordData) (w : TranscriptWordData) (buf : List TranscriptWordData),
      segmentGo mL nL mD w rest buf =
        ((chunksGo mL nL mD w rest buf).filter (fun c => c.2)).map
          (fun c => mkBufSentence c.1.1 c.1.2) := by
  intro rest
  induction rest with
  | nil => intro w buf; simp [chunksGo, segmentGo_nil, List.filter]
  | cons r rs ih =>
    intro w buf
    rcases Bool.eq_false_or_eq_true
        (shouldSplit mL nL mD w (some r) (bufFirst buf w) (buf.length + 1)) with h | h
    · rw [segmentGo_step_split h, chunksGo_step_split h]
      by_cases hm : nL ≤ buf.length + 1
      · rw [if_pos hm]
        simp only [List.filter_cons, decide_eq_true hm, List.map_cons]
        rw [ih r []]
        simp
      · rw [if_neg hm]
        simp only [List.filter_cons, decide_eq_false hm, Bool.false_eq_true, if_false]
        rw [ih r []]
        simp
    · rw [segmentGo_step_no_split h, chunksGo_step_no_split h]
      exact ih r (buf ++ [w])

theorem chunksGo_discarded_short (mL nL : Nat) (mD : ℚ) :
    ∀ (rest : List TranscriptWordData) (w : TranscriptWordData) (buf : List TranscriptWordData)
      (c : (List TranscriptWordData × TranscriptWordData) × Bool),
      c ∈ chunksGo mL nL mD w rest buf → c.2 = false → (chunkWords c).length < nL := by
  intro rest
  induction rest with
  | nil =>
    intro w buf c hc hfalse
    simp only [chunksGo, List.mem_singleton] at hc
    subst hc
    simp at hfalse
  | cons r rs ih =>
    intro w buf c hc hfalse
    rcases Bool.eq_false_or_eq_true
        (shouldSplit mL nL mD w (some r) (bufFirst buf w) (buf.length + 1)) with h | h
    · rw [chunksGo_step_split h, List.mem_cons] at hc
      rcases hc with hc | hc
      · subst hc
        simp only [decide_eq_false_iff_not, not_le] at hfalse
        simpa [chunkWords] using hfalse
      · exact ih r [] c hc hfalse
    · rw [chunksGo_step_no_split h] at hc
      exact ih r (buf ++ [w]) c hc hfalse

theorem chunksGo_ne_nil (mL nL : Nat) (mD : ℚ) :
    ∀ (rest : List TranscriptWordData) (w : TranscriptWordData) (buf : List TranscriptWordData),
      chunksGo mL nL mD w rest buf ≠ [] := by
  intro rest
  induction rest with
  | nil => intro w buf; simp [chunksGo]
  | cons r rs ih =>
    intro w buf
    rcases Bool.eq_false_or_eq_true
        (shouldSplit mL nL mD w (some r) (bufFirst buf w) (buf.length + 1)) with h | h
    · rw [chunksGo_step_split h]; simp
    · rw [chunksGo_step_no_split h]
      exact ih r (buf ++ [w])

theorem chunksGo_last_true (mL nL : Nat) (mD : ℚ) :
    ∀ (rest : List TranscriptWordData) (w : TranscriptWordData) (buf : List TranscriptWordData)
      (c : (List TranscriptWordData × TranscriptWordData) × Bool),
      (chunksGo mL nL mD w rest buf).getLast? = some c → c.2 = true := by
  intro rest
  induction rest with
  | nil =>
    intro w buf c hc
    simp only [chunksGo, List.getLast?_singleton, Option.some.injEq] at hc
    subst hc
    rfl
  | cons r rs ih =>
    intro w buf c hc
    rcases Bool.eq_false_or_eq_true
        (shouldSplit mL nL mD w (some r) (bufFirst buf w) (buf.length + 1)) with h | h
    · rw [chunksGo_step_split h] at hc
      obtain ⟨y, l, hl⟩ := List.exists_cons_of_ne_nil (chunksGo_ne_nil mL nL mD rs r [])
      rw [hl, List.getLast?_cons_cons] at hc
      exact ih r [] c (by rw [hl]; exact hc)
    · rw [chunksGo_step_no_split h] at hc
      exact ih r (buf ++ [w]) c hc

theorem segmentGo_mem_shape (mL nL : Nat) (mD : ℚ) :
    ∀ (rest : List TranscriptWordData) (w : TranscriptWordData) (buf : List TranscriptWordData)
      (s : Sentence), s ∈ segmentGo mL nL mD w rest buf →
      ∃ b x, s = mkBufSentence b x := by
  intro rest
  induction rest with
  | nil =>
    intro w buf s hs
    rw [segmentGo_nil, List.mem_singleton] at hs
    exact ⟨buf, w, hs⟩
  | cons r rs ih =>
    intro w buf s hs
    rcases Bool.eq_false_or_eq_true
        (shouldSplit mL nL mD w (some r) (bufFirst buf w) (buf.length + 1)) with h | h
    · rw [segmentGo_step_split h] at hs
      rcases List.mem_append.mp hs with hs | hs
      · by_cases hm : nL ≤ buf.length + 1
        · rw [if_pos hm, List.mem_singleton] at hs
          exact ⟨buf, w, hs⟩
        · rw [if_neg hm] at hs
          exact absurd hs (List.not_mem_nil s)
      · exact ih r [] s hs
    · rw [segmentGo_step_no_split h] at hs
      exact ih r (buf ++ [w]) s hs

theorem ofWords_mkBufSentence (buf : List TranscriptWordData) (w : TranscriptWordData) :
    Sentence.ofWords? (mkBufSentence buf w).words = some (mkBufSentence buf w) := by
  cases buf with
  | nil => rfl
  | cons b bs =>
    simp [mkBufSentence, Sentence.ofWords?, bufFirst, List.getLast?_concat]

/-! Helper lemmas about the cache store. -/

theorem dictGet_insert_self (k : List Char) (v : CacheEntry) :
    ∀ l, dictGet k (dictInsert k v l) = some v := by
  intro l
  induction l with
  | nil => simp [dictInsert, dictGet]
  | cons p rest ih =>
    obtain ⟨k', v'⟩ := p
    by_cases h : k' = k
    · simp [dictInsert, dictGet, h]
    · simp [dictInsert, dictGet, h, ih]

theorem dictGet_insert_ne (k other : List Char) (v : CacheEntry) (hne : other ≠ k) :
    ∀ l, dictGet other (dictInsert k v l) = dictGet other l := by
  intro l
  induction l with
  | nil => simp [dictInsert, dictGet, Ne.symm hne]
  | cons p rest ih =>
    obtain ⟨k', v'⟩ := p
    by_cases h : k' = k
    · subst h
      simp [dictInsert, dictGet, Ne.symm hne]
    · simp [dictInsert, dictGet, h, ih]

theorem wordsRoundTrip (ws : List TranscriptWordData) :
    words_to_objects (ws.map wordToDict) = ws := by
  simp only [words_to_objects, wordToDict, List.map_map]
  exact List.map_id ws

/-! Claim theorems. -/

/-- C4: every `Sentence` emitted by `segment_into_sentences` contains only
words whose speaker label equals the sentence's `speaker` attribute, which is
the speaker of the sentence's first word — a split always occurs between two
consecutive words with differing speakers, so no emitted sentence crosses a
speaker boundary. -/
theorem speaker_boundary_invariant (ws : List TranscriptWordData) (maxLen minLen : Nat)
    (maxDur : ℚ) (s : Sentence) (hs : s ∈ segment_into_sentences ws maxLen minLen maxDur)
    (x : TranscriptWordData) (hx : x ∈ s.words) : x.speaker = s.speaker := by
  cases ws with
  | nil => simp [segment_into_sentences] at hs
  | cons w rest =>
    exact segmentGo_speaker_aux maxLen minLen maxDur rest w [] (by simp [bufFirst]) s hs x hx

/-- Witness for C4 at a concrete one-speaker input. -/
theorem speaker_boundary_invariant_witness :
    (⟨['a'], 0, 0, some ['A']⟩ : TranscriptWordData).speaker =
      (mkBufSentence [] ⟨['a'], 0, 0, some ['A']⟩).speaker :=
  speaker_boundary_invariant [⟨['a'], 0, 0, some ['A']⟩] 10 3 8
    (mkBufSentence [] ⟨['a'], 0, 0, some ['A']⟩)
    (by simp [segment_into_sentences, segmentGo_nil])
    ⟨['a'], 0, 0, some ['A']⟩ (by simp [mkBufSentence_words])

/-- C8: `segment_into_sentences` on the empty word list returns the empty
list; it is total (structural recursion) and every `Sentence` it emits is
built from a non-empty buffer, so the `Sentence` constructor's access to the
first and last word (`Sentence.ofWords?`) never fails. -/
theorem segmenter_totality (maxLen minLen : Nat) (maxDur : ℚ) :
    segment_into_sentences [] maxLen minLen maxDur = [] ∧
    ∀ (ws : List TranscriptWordData) (s : Sentence),
      s ∈ segment_into_sentences ws maxLen minLen maxDur →
      s.words ≠ [] ∧ Sentence.ofWords? s.words = some s := by
  refine ⟨rfl, ?_⟩
  intro ws s hs
  cases ws with
  | nil => simp [segment_into_sentences] at hs
  | cons w rest =>
    obtain ⟨b, x, rfl⟩ := segmentGo_mem_shape maxLen minLen maxDur rest w [] s hs
    exact ⟨by simp [mkBufSentence_words], ofWords_mkBufSentence b x⟩

/-- Witness for C8 at a concrete one-word input. -/
theorem segmenter_totality_witness :
    (mkBufSentence [] ⟨['a'], 0, 0, none⟩).words ≠ [] ∧
      Sentence.ofWords? (mkBufSentence [] ⟨['a'], 0, 0, none⟩).words =
        some (mkBufSentence [] ⟨['a'], 0, 0, none⟩) :=
  (segmenter_totality 10 3 8).2 [⟨['a'], 0, 0, none⟩]
    (mkBufSentence [] ⟨['a'], 0, 0, none⟩)
    (by simp [segment_into_sentences, segmentGo_nil])

/-- C6: `filter_valid_sentences` is idempotent for any sentence list and
threshold, and its output is a subsequence of its input (an order-preserving
pure predicate filter). -/
theorem filter_valid_idempotent (S : List Sentence) (n : Nat) :
    filter_valid_sentences (filter_valid_sentences S n) n = filter_valid_sentences S n ∧
      (filter_valid_sentences S n).Sublist S := by
  constructor
  · rw [filter_valid_sentences, filter_valid_sentences, List.filter_filter]
    congr 1
    funext s
    exact Bool.and_self _
  · exact List.filter_sublist S

/-- C5: saving a transcript and immediately reading it back yields a present
cache entry holding exactly the serialized words (which deserialize back to
the original words field by field) and the saved video and audio paths. -/
theorem cache_round_trip (st : CacheState) (now now2 : ℚ) (name : List Char)
    (ws : List TranscriptWordData) (vp ap : List Char) :
    (get_transcript (save_transcript st now name ws vp ap) now2 name).1 =
        some { words := ws.map wordToDict, video_path := vp, audio_path := ap,
               timestamp := now } ∧
      words_to_objects (ws.map wordToDict) = ws := by
  constructor
  · simp [get_transcript, save_transcript, dictGet_insert_self]
  · exact wordsRoundTrip ws

/-- C10: `save_transcript` leaves the cache entry of every other video name
unchanged — it reads the whole store, replaces only the entry keyed by the
saved name, and writes the rest back verbatim. -/
theorem save_transcript_frame (st : CacheState) (now : ℚ) (name other : List Char)
    (ws : List TranscriptWordData) (vp ap : List Char) (hne : other ≠ name) :
    dictGet other (save_transcript st now name ws vp ap).store = dictGet other st.store := by
  simp only [save_transcript]
  exact dictGet_insert_ne name other _ hne st.store

/-- Witness for C10: saving under `v1` does not disturb the entry under `v2`. -/
theorem save_transcript_frame_witness :
    dictGet ['v','2'] (save_transcript exStore 5 ['v','1'] [] ['p','2'] ['q','2']).store =
      dictGet ['v','2'] exStore.store :=
  save_transcript_frame exStore 5 ['v','1'] ['v','2'] [] ['p','2'] ['q','2'] (by decide)

/-- C2 (code bug): the expiry sweep never deletes anything.  Constructing
`CacheManager(session_dir)` inside `cleanup_old_sessions` calls
`update_activity()`, which overwrites `last_activity.txt` with the current
time before `get_age_hours()` reads it, so the computed age is `0` and the
`age > max_age_hours` test never fires.  Concretely, with the sweep run at
time `10000` and threshold `1` hour: a session whose recorded activity is two
hours old (`2800`) is kept — its timestamp is merely refreshed — although its
true age is `2` hours and the spec's sweep (`specSweep`) deletes it, while
the half-hour-old session (`8200`) is rightly kept by both. -/
theorem expiry_sweep_deletes_nothing :
    cleanup_old_sessions 10000 1 [⟨some 2800⟩] = [⟨some 10000⟩] ∧
    get_age_hours 10000 ⟨some 2800⟩ = 2 ∧
    specSweep 10000 1 [⟨some 2800⟩] = [] ∧
    specSweep 10000 1 [⟨some 8200⟩] = [⟨some 8200⟩] ∧
    cleanup_old_sessions 10000 1 [⟨some 8200⟩] = [⟨some 10000⟩] := by
  refine ⟨?_, ?_, ?_, ?_, ?_⟩ <;>
    norm_num [cleanup_old_sessions, sweepSession, update_activity, get_age_hours, specSweep,
      List.filterMap]

/-- Counterexample to C1 as stated: the code has no unconditional hard-length
split (the length branch also demands a punctuation or whitespace marker in
the current word), so the 12-word punctuation-free stream `exNoPunct` with
`max_length = 5` comes out as a single 12-word sentence instead of the
predicted `[5, 5, 2]`. -/
theorem hard_limit_cex :
    (segment_into_sentences exNoPunct 5 3 8).map (fun s => s.words.length) = [12] ∧
      ¬ (∀ s ∈ segment_into_sentences exNoPunct 5 3 8, s.words.length ≤ 5) := by
  have h : (segment_into_sentences exNoPunct 5 3 8).map (fun s => s.words.length) = [12] := by
    norm_num [exNoPunct, segment_into_sentences, segmentGo, shouldSplit, bufFirst, mkBufSentence,
      hasSentencePunct, hasClausePunct, hasBoundaryChar, isPySpaceChar]
    try decide
  refine ⟨h, ?_⟩
  intro hall
  rcases hseg : segment_into_sentences exNoPunct 5 3 8 with _ | ⟨s, rest⟩
  · rw [hseg] at h
    simp at h
  · rw [hseg] at h
    simp only [List.map_cons, List.cons.injEq] at h
    have hle := hall s (by rw [hseg]; exact List.mem_cons_self s rest)
    omega

/-- C1 amended: the length split at `max_length` fires only when the current
word carries a boundary marker, so the bound holds under the hypothesis that
every word's text contains one; the concrete `[5, 5, 2]` cutoff of a 12-word
stream at `max_length = 5` holds for the whitespace-marked stream
`exBoundary`. -/
theorem length_bounded_when_all_boundary :
    (∀ (ws : List TranscriptWordData) (maxLen minLen : Nat) (maxDur : ℚ),
        1 ≤ maxLen → (∀ w ∈ ws, hasBoundaryChar w.text = true) →
        ∀ s ∈ segment_into_sentences ws maxLen minLen maxDur, s.words.length ≤ maxLen) ∧
      (segment_into_sentences exBoundary 5 3 8).map (fun s => s.words.length) = [5, 5, 2] := by
  constructor
  · intro ws maxLen minLen maxDur hML hb s hs
    cases ws with
    | nil => simp [segment_into_sentences] at hs
    | cons w rest =>
      exact segmentGo_len_aux maxLen minLen maxDur hML rest w [] hb (by simpa using hML) s hs
  · norm_num [exBoundary, segment_into_sentences, segmentGo, shouldSplit, bufFirst, mkBufSentence,
      hasSentencePunct, hasClausePunct, hasBoundaryChar, isPySpaceChar]
    try decide

/-- Witness for the amended C1 at the whitespace-marked 12-word stream. -/
theorem length_bounded_when_all_boundary_witness :
    1 ≤ 5 ∧ ∀ s ∈ segment_into_sentences exBoundary 5 3 8, s.words.length ≤ 5 :=
  ⟨by norm_num,
    length_bounded_when_all_boundary.1 exBoundary 5 3 8 (by norm_num) (by decide)⟩

/-- Counterexample to C3 as stated: on `exSpeakers` the two speaker-`B` words
(`f`, `g`) are discarded mid-stream at a speaker change, not as a trailing
fragment: the emitted words are not an initial segment of the input, and no
trailing remainder of the input completes them to the full input. -/
theorem coverage_trailing_cex :
    exSpeakersEmitted.map (fun w => w.text) =
        [['a'],['b'],['c'],['d'],['e'],['h'],['i'],['j']] ∧
      exSpeakersEmitted ≠ exSpeakers.take exSpeakersEmitted.length ∧
      ((List.range (exSpeakers.length + 1)).all
          (fun k => !(decide (exSpeakersEmitted ++ exSpeakers.drop k = exSpeakers)))) = true := by
  have h : exSpeakersEmitted =
      [⟨['a'],0,0,some ['A']⟩, ⟨['b'],0,0,some ['A']⟩, ⟨['c'],0,0,some ['A']⟩,
       ⟨['d'],0,0,some ['A']⟩, ⟨['e'],0,0,some ['A']⟩,
       ⟨['h'],0,0,some ['A']⟩, ⟨['i'],0,0,some ['A']⟩, ⟨['j'],0,0,some ['A']⟩] := by
    norm_num [exSpeakersEmitted, exSpeakers, segment_into_sentences, segmentGo, shouldSplit, bufFirst, mkBufSentence,
      hasSentencePunct, hasClausePunct, hasBoundaryChar, isPySpaceChar]
    try decide
  rw [h]
  refine ⟨by decide, by decide, by decide⟩

/-- C3 amended: the loop's buffers (chunks) partition the input exactly, in
order, with no word dropped or duplicated at the chunk level; the emitted
sentences are exactly the chunks passing the emission test, every discarded
chunk is shorter than `min_length`, and the final chunk is never discarded —
but discarded short fragments may occur mid-stream (e.g. at speaker
changes), not only at the tail. -/
theorem segmentation_chunk_coverage (ws : List TranscriptWordData) (maxLen minLen : Nat)
    (maxDur : ℚ) :
    ((segmentChunks ws maxLen minLen maxDur).map chunkWords).flatten = ws ∧
    segment_into_sentences ws maxLen minLen maxDur =
      ((segmentChunks ws maxLen minLen maxDur).filter (fun c => c.2)).map
        (fun c => mkBufSentence c.1.1 c.1.2) ∧
    (∀ c ∈ segmentChunks ws maxLen minLen maxDur, c.2 = false →
      (chunkWords c).length < minLen) ∧
    (∀ c, (segmentChunks ws maxLen minLen maxDur).getLast? = some c → c.2 = true) := by
  cases ws with
  | nil => simp [segmentChunks, segment_into_sentences]
  | cons w rest =>
    refine ⟨?_, ?_, ?_, ?_⟩
    · simpa using chunksGo_flatten maxLen minLen maxDur rest w []
    · exact segmentGo_eq_chunks maxLen minLen maxDur rest w []
    · exact fun c hc hf => chunksGo_discarded_short maxLen minLen maxDur rest w [] c hc hf
    · exact fun c hc => chunksGo_last_true maxLen minLen maxDur rest w [] c hc

/-- Witness for the amended C3: the mid-stream chunk of the two speaker-`B`
words of `exSpeakers` is discarded and indeed shorter than `min_length`. -/
theorem segmentation_chunk_coverage_witness :
    (chunkWords (([⟨['f'],0,0,some ['B']⟩], ⟨['g'],0,0,some ['B']⟩), false)).length < 3 :=
  (segmentation_chunk_coverage exSpeakers 10 3 8).2.2.1
    (([⟨['f'],0,0,some ['B']⟩], ⟨['g'],0,0,some ['B']⟩), false)
    (by norm_num [exSpeakers, segmentChunks, chunksGo, shouldSplit, bufFirst,
          hasSentencePunct, hasClausePunct, hasBoundaryChar, isPySpaceChar]
        try decide) rfl

/-- C7: for any stream whose first thirteen words share one speaker, carry no
boundary marker before index 12, stay below the duration limit, and whose
word at index 12 carries sentence-final punctuation, segmentation with
`max_length = 10` emits its first sentence only at that natural boundary:
the first sentence is the first 13 words — at or past the soft limit of 10,
not forced at exactly 10. -/
theorem soft_limit_boundary
    (w0 w1 w2 w3 w4 w5 w6 w7 w8 w9 w10 w11 w12 : TranscriptWordData)
    (tail : List TranscriptWordData) (minLen : Nat) (maxDur : ℚ)
    (hspk : List.Chain' (fun a b => a.speaker = b.speaker)
      [w0,w1,w2,w3,w4,w5,w6,w7,w8,w9,w10,w11,w12])
    (hnb : ∀ x ∈ [w0,w1,w2,w3,w4,w5,w6,w7,w8,w9,w10,w11], hasBoundaryChar x.text = false)
    (hdur : ∀ x ∈ [w0,w1,w2,w3,w4,w5,w6,w7,w8,w9,w10,w11], x.«end» - w0.start < maxDur)
    (hp : hasSentencePunct w12.text = true)
    (hmin : minLen ≤ 13) :
    ∃ restS,
      segment_into_sentences
          (w0::w1::w2::w3::w4::w5::w6::w7::w8::w9::w10::w11::w12::tail) 10 minLen maxDur =
        mkBufSentence [w0,w1,w2,w3,w4,w5,w6,w7,w8,w9,w10,w11] w12 :: restS ∧
      (mkBufSentence [w0,w1,w2,w3,w4,w5,w6,w7,w8,w9,w10,w11] w12).words.length = 13 := by
  simp only [List.chain'_cons, List.chain'_singleton, and_true] at hspk
  obtain ⟨h01, h12, h23, h34, h45, h56, h67, h78, h89, h910, h1011, h1112⟩ := hspk
  simp only [List.forall_mem_cons] at hnb hdur
  obtain ⟨b0, b1, b2, b3, b4, b5, b6, b7, b8, b9, b10, b11, -⟩ := hnb
  obtain ⟨d0, d1, d2, d3, d4, d5, d6, d7, d8, d9, d10, d11, -⟩ := hdur
  have t0 : segmentGo 10 minLen maxDur w0 (w1::w2::w3::w4::w5::w6::w7::w8::w9::w10::w11::w12::tail) [] =
      segmentGo 10 minLen maxDur w1 (w2::w3::w4::w5::w6::w7::w8::w9::w10::w11::w12::tail) [w0] :=
    segmentGo_step_no_split (shouldSplit_false_of_no_boundary h01 (Or.inl d0) b0)
  have t1 : segmentGo 10 minLen maxDur w1 (w2::w3::w4::w5::w6::w7::w8::w9::w10::w11::w12::tail) [w0] =
      segmentGo 10 minLen maxDur w2 (w3::w4::w5::w6::w7::w8::w9::w10::w11::w12::tail) [w0,w1] :=
    segmentGo_step_no_split (shouldSplit_false_of_no_boundary h12 (Or.inl d1) b1)
  have t2 : segmentGo 10 minLen maxDur w2 (w3::w4::w5::w6::w7::w8::w9::w10::w11::w12::tail) [w0,w1] =
      segmentGo 10 minLen maxDur w3 (w4::w5::w6::w7::w8::w9::w10::w11::w12::tail) [w0,w1,w2] :=
    segmentGo_step_no_split (shouldSplit_false_of_no_boundary h23 (Or.inl d2) b2)
  have t3 : segmentGo 10 minLen maxDur w3 (w4::w5::w6::w7::w8::w9::w10::w11::w12::tail) [w0,w1,w2] =
      segmentGo 10 minLen maxDur w4 (w5::w6::w7::w8::w9::w10::w11::w12::tail) [w0,w1,w2,w3] :=
    segmentGo_step_no_split (shouldSplit_false_of_no_boundary h34 (Or.inl d3) b3)
  have t4 : segmentGo 10 minLen maxDur w4 (w5::w6::w7::w8::w9::w10::w11::w12::tail) [w0,w1,w2,w3] =
      segmentGo 10 minLen maxDur w5 (w6::w7::w8::w9::w10::w11::w12::tail) [w0,w1,w2,w3,w4] :=
    segmentGo_step_no_split (shouldSplit_false_of_no_boundary h45 (Or.inl d4) b4)
  have t5 : segmentGo 10 minLen maxDur w5 (w6::w7::w8::w9::w10::w11::w12::tail) [w0,w1,w2,w3,w4] =
      segmentGo 10 minLen maxDur w6 (w7::w8::w9::w10::w11::w12::tail) [w0,w1,w2,w3,w4,w5] :=
    segmentGo_step_no_split (shouldSplit_false_of_no_boundary h56 (Or.inl d5) b5)
  have t6 : segmentGo 10 minLen maxDur w6 (w7::w8::w9::w10::w11::w12::tail) [w0,w1,w2,w3,w4,w5] =
      segmentGo 10 minLen maxDur w7 (w8::w9::w10::w11::w12::tail) [w0,w1,w2,w3,w4,w5,w6] :=
    segmentGo_step_no_split (shouldSplit_false_of_no_boundary h67 (Or.inl d6) b6)
  have t7 : segmentGo 10 minLen maxDur w7 (w8::w9::w10::w11::w12::tail) [w0,w1,w2,w3,w4,w5,w6] =
      segmentGo 10 minLen maxDur w8 (w9::w10::w11::w12::tail) [w0,w1,w2,w3,w4,w5,w6,w7] :=
    segmentGo_step_no_split (shouldSplit_false_of_no_boundary h78 (Or.inl d7) b7)
  have t8 : segmentGo 10 minLen maxDur w8 (w9::w10::w11::w12::tail) [w0,w1,w2,w3,w4,w5,w6,w7] =
      segmentGo 10 minLen maxDur w9 (w10::w11::w12::tail) [w0,w1,w2,w3,w4,w5,w6,w7,w8] :=
    segmentGo_step_no_split (shouldSplit_false_of_no_boundary h89 (Or.inl d8) b8)
  have t9 : segmentGo 10 minLen maxDur w9 (w10::w11::w12::tail) [w0,w1,w2,w3,w4,w5,w6,w7,w8] =
      segmentGo 10 minLen maxDur w10 (w11::w12::tail) [w0,w1,w2,w3,w4,w5,w6,w7,w8,w9] :=
    segmentGo_step_no_split (shouldSplit_false_of_no_boundary h910 (Or.inl d9) b9)
  have t10 : segmentGo 10 minLen maxDur w10 (w11::w12::tail) [w0,w1,w2,w3,w4,w5,w6,w7,w8,w9] =
      segmentGo 10 minLen maxDur w11 (w12::tail) [w0,w1,w2,w3,w4,w5,w6,w7,w8,w9,w10] :=
    segmentGo_step_no_split (shouldSplit_false_of_no_boundary h1011 (Or.inl d10) b10)
  have t11 : segmentGo 10 minLen maxDur w11 (w12::tail) [w0,w1,w2,w3,w4,w5,w6,w7,w8,w9,w10] =
      segmentGo 10 minLen maxDur w12 (tail) [w0,w1,w2,w3,w4,w5,w6,w7,w8,w9,w10,w11] :=
    segmentGo_step_no_split (shouldSplit_false_of_no_boundary h1112 (Or.inl d11) b11)
  have key : segment_into_sentences
      (w0::w1::w2::w3::w4::w5::w6::w7::w8::w9::w10::w11::w12::tail) 10 minLen maxDur =
      segmentGo 10 minLen maxDur w12 tail [w0,w1,w2,w3,w4,w5,w6,w7,w8,w9,w10,w11] := by
    simp only [segment_into_sentences]
    rw [t0, t1, t2, t3, t4, t5, t6, t7, t8, t9, t10, t11]
  cases tail with
  | nil => exact ⟨[], by rw [key, segmentGo_nil], by simp [mkBufSentence_words]⟩
  | cons t ts =>
    refine ⟨segmentGo 10 minLen maxDur t ts [], ?_, by simp [mkBufSentence_words]⟩
    rw [key]
    exact segmentGo_step_split_emit (shouldSplit_of_sentencePunct hp (by norm_num))
      (by simpa using hmin)

/-- Witness for C7 at the concrete stream `exSoft` (punctuation only in the
word at index 12). -/
theorem soft_limit_boundary_witness :
    ∃ restS,
      segment_into_sentences exSoft 10 3 8 =
        mkBufSentence
          [⟨['a'],0,0,none⟩, ⟨['b'],0,0,none⟩, ⟨['c'],0,0,none⟩, ⟨['d'],0,0,none⟩,
           ⟨['e'],0,0,none⟩, ⟨['f'],0,0,none⟩, ⟨['g'],0,0,none⟩, ⟨['h'],0,0,none⟩,
           ⟨['i'],0,0,none⟩, ⟨['j'],0,0,none⟩, ⟨['k'],0,0,none⟩, ⟨['l'],0,0,none⟩]
          ⟨['m','。'],0,0,none⟩ :: restS ∧
      (mkBufSentence
          [⟨['a'],0,0,none⟩, ⟨['b'],0,0,none⟩, ⟨['c'],0,0,none⟩, ⟨['d'],0,0,none⟩,
           ⟨['e'],0,0,none⟩, ⟨['f'],0,0,none⟩, ⟨['g'],0,0,none⟩, ⟨['h'],0,0,none⟩,
           ⟨['i'],0,0,none⟩, ⟨['j'],0,0,none⟩, ⟨['k'],0,0,none⟩, ⟨['l'],0,0,none⟩]
          ⟨['m','。'],0,0,none⟩).words.length = 13 :=
  soft_limit_boundary
    ⟨['a'],0,0,none⟩ ⟨['b'],0,0,none⟩ ⟨['c'],0,0,none⟩ ⟨['d'],0,0,none⟩
    ⟨['e'],0,0,none⟩ ⟨['f'],0,0,none⟩ ⟨['g'],0,0,none⟩ ⟨['h'],0,0,none⟩
    ⟨['i'],0,0,none⟩ ⟨['j'],0,0,none⟩ ⟨['k'],0,0,none⟩ ⟨['l'],0,0,none⟩
    ⟨['m','。'],0,0,none⟩ [] 3 8
    (by simp [List.chain'_cons, List.chain'_singleton])
    (by decide)
    (by intro x hx; fin_cases hx <;> norm_num)
    (by decide) (by norm_num)

/-- C9: the implicit duration-based split: whenever the elapsed duration of
the buffer (current word's end minus the first buffered word's start) reaches
`max_duration` and the buffer holds at least `min_length` words, the loop
splits at the current word and emits the buffer — with no hypothesis on the
word's punctuation, since the duration test precedes every punctuation and
length test in the `elif` chain. -/
theorem duration_split_fires (maxLen minLen : Nat) (maxDur : ℚ) (w r : TranscriptWordData)
    (rs buf : List TranscriptWordData)
    (hdur : maxDur ≤ w.«end» - (bufFirst buf w).start)
    (hmin : minLen ≤ buf.length + 1) :
    segmentGo maxLen minLen maxDur w (r :: rs) buf =
      mkBufSentence buf w :: segmentGo maxLen minLen maxDur r rs [] :=
  segmentGo_step_split_emit (shouldSplit_of_duration hdur hmin) hmin

/-- Witness for C9: a three-word buffer spanning 9 seconds splits at the
third word with `max_duration = 8`. -/
theorem duration_split_fires_witness :
    segmentGo 10 3 8 ⟨['c'],6,9,none⟩ [⟨['d'],9,10,none⟩]
        [⟨['a'],0,3,none⟩, ⟨['b'],3,6,none⟩] =
      mkBufSentence [⟨['a'],0,3,none⟩, ⟨['b'],3,6,none⟩] ⟨['c'],6,9,none⟩ ::
        segmentGo 10 3 8 ⟨['d'],9,10,none⟩ [] [] :=
  duration_split_fires 10 3 8 ⟨['c'],6,9,none⟩ ⟨['d'],9,10,none⟩ []
    [⟨['a'],0,3,none⟩, ⟨['b'],3,6,none⟩]
    (by norm_num [bufFirst]) (by norm_num)
